import Mathlib

/-!
Shallow embedding of `src/boosting/stump_regress.h` (regression training for
decision stumps): the `W_regress` sufficient-statistics accumulator, the
`Z_regress` split-quality functional, and the `C_regress` leaf predictor.

Machine doubles are modelled as rationals (exact arithmetic); a bucket index
is `Fin 3` with FALSE = 0, TRUE = 1, MISSING = 2, as in the enum of
`stump_training.h`.  `Label::value()` is modelled by passing the label's value
as a rational.  The per-example weight iterator is modelled as a function
`Nat → ℚ` (the C++ code dereferences only `*it`, i.e. index 0).  Exceptions
are modelled with an explicit error type.
-/

namespace ML

/-- Error taxonomy of the component: `W_regress::W_regress` throws on a
non-regression problem, and the accumulator-to-accumulator `transfer`
overload throws "not implemented". -/
inductive MLError where
  | invalidProblem : MLError
  | notImplemented : MLError
deriving DecidableEq, Repr

/-- The `W_regress` accumulator: three parallel triples of doubles indexed by
bucket.  `dist[b] = Σ weight·label`, `sqr[b] = Σ weight·label²`,
`wt[b] = Σ weight`. -/
structure W_regress where
  dist : Fin 3 → ℚ
  sqr : Fin 3 → ℚ
  wt : Fin 3 → ℚ

/-- The epsilon `1e-20` used by the source to guard near-zero bucket
weights. -/
def eps : ℚ := 1e-20

/-- Models `W_regress::W_regress(size_t nl)`: throws `InvalidProblem` when
`nl != 1`, otherwise zero-initialises all nine fields. -/
def W_regress.construct (nl : ℕ) : Except MLError W_regress :=
  if nl ≠ 1 then .error .invalidProblem
  else .ok ⟨fun _ => 0, fun _ => 0, fun _ => 0⟩

/-- The weighted `W_regress::add(correct_label, bucket, weight, it, advance)`:
with `f = label.value()` and `w = *it * weight`, adds `f·w` to `dist[bucket]`,
`f·f·w` to `sqr[bucket]` and `w` to `wt[bucket]`.  `advance` is unused by the
body. -/
def W_regress.add (s : W_regress) (label : ℚ) (bucket : Fin 3) (weight : ℚ)
    (it : ℕ → ℚ) (advance : ℤ) : W_regress :=
  let f := label
  let w := it 0 * weight
  let fw := f * w
  let ffw := f * fw
  ⟨Function.update s.dist bucket (s.dist bucket + fw),
   Function.update s.sqr bucket (s.sqr bucket + ffw),
   Function.update s.wt bucket (s.wt bucket + w)⟩

/-- Models `W_regress::transfer(correct_label, from, to, weight, it, advance)`:
computes the same `(f·w, f·f·w, w)` triple, subtracts it from bucket `src`
and then adds it to bucket `dst` (sequentially, as the source does). -/
def W_regress.transfer (s : W_regress) (label : ℚ) (src dst : Fin 3)
    (weight : ℚ) (it : ℕ → ℚ) (advance : ℤ) : W_regress :=
  let f := label
  let w := it 0 * weight
  let fw := f * w
  let ffw := f * fw
  let d1 := Function.update s.dist src (s.dist src - fw)
  let s1 := Function.update s.sqr src (s.sqr src - ffw)
  let t1 := Function.update s.wt src (s.wt src - w)
  ⟨Function.update d1 dst (d1 dst + fw),
   Function.update s1 dst (s1 dst + ffw),
   Function.update t1 dst (t1 dst + w)⟩

/-- Models `W_regress::transfer(int from, int to, const W_regress &)`: the body is a
single `throw Exception("not implemented")`, so the call always fails and the
receiving accumulator (`this`) is never mutated.  Modelled as a pair
(raised error, post-state of `this`). -/
def W_regress.transferBulk (s : W_regress) (src dst : Fin 3)
    (other : W_regress) : Option MLError × W_regress :=
  (some .notImplemented, s)

/-- Models `W_regress::clip(bucket)`: clamps the three fields of one bucket with
`std::max(·, 0.0)`. -/
def W_regress.clip (s : W_regress) (bucket : Fin 3) : W_regress :=
  ⟨Function.update s.dist bucket (max (s.dist bucket) 0),
   Function.update s.sqr bucket (max (s.sqr bucket) 0),
   Function.update s.wt bucket (max (s.wt bucket) 0)⟩

namespace Z_regress

/-- Models `Z_regress::missing(w, optional)`: the threshold-independent part of the
score — the weighted variance contribution of the MISSING bucket, or `0` when
its weight is below `1e-20`. -/
def missing (w : W_regress) : ℚ :=
  if w.wt 2 > eps then
    w.sqr 2 - (w.dist 2 * w.dist 2) / w.wt 2
  else 0

/-- Models `Z_regress::non_missing(w, missing)`: adds the variance contributions of
buckets FALSE (0) and TRUE (1), each guarded by the `1e-20` epsilon, to the
supplied missing term (the source's loop over `i < 2`, unrolled). -/
def non_missing (w : W_regress) (missingTerm : ℚ) : ℚ :=
  missingTerm
    + (if w.wt 0 > eps then w.sqr 0 - (w.dist 0 * w.dist 0) / w.wt 0 else 0)
    + (if w.wt 1 > eps then w.sqr 1 - (w.dist 1 * w.dist 1) / w.wt 1 else 0)

/-- Models `Z_regress::operator()`, which is `non_missing(w, missing(w))`: the full split
score. -/
def score (w : W_regress) : ℚ :=
  non_missing w (missing w)

/-- Models `Z_regress::can_beat(w, missing, z_best)`: `missing <= z_best * 1.0001`.
The accumulator argument is unused by the body, as in the source. -/
def can_beat (w : W_regress) (missingTerm z_best : ℚ) : Bool :=
  missingTerm ≤ z_best * 1.0001

end Z_regress

/-- Models `C_regress::operator()(w, epsilon, optional)`: per bucket, the weighted
mean `dist[i]/wt[i]` when `wt[i] > 1e-20`, otherwise the sample mean
`total/total_wt` accumulated over all three buckets (the source's inner loop
over `j < 3`, unrolled). -/
def C_regress.predict (w : W_regress) (i : Fin 3) : ℚ :=
  if w.wt i > eps then w.dist i / w.wt i
  else
    (w.dist 0 + w.dist 1 + w.dist 2) / (w.wt 0 + w.wt 1 + w.wt 2)

/-- The `total` accumulated in the fallback branch of
`C_regress::operator()`. -/
def C_regress.total (w : W_regress) : ℚ :=
  w.dist 0 + w.dist 1 + w.dist 2

/-- The `total_wt` accumulated in the fallback branch of
`C_regress::operator()` — the divisor of the fallback mean. -/
def C_regress.total_wt (w : W_regress) : ℚ :=
  w.wt 0 + w.wt 1 + w.wt 2

/-- One call of the caller-driven mutation interface of `W_regress`: either a
weighted `add` or a single-example `transfer`. -/
inductive WOp where
  | add (label : ℚ) (bucket : Fin 3) (weight : ℚ) (it : ℕ → ℚ) (advance : ℤ)
  | transfer (label : ℚ) (src dst : Fin 3) (weight : ℚ) (it : ℕ → ℚ)
      (advance : ℤ)

/-- Whether an operation is an `add` call. -/
def WOp.isAdd : WOp → Bool
  | .add .. => true
  | .transfer .. => false

/-- Executes one operation on an accumulator. -/
def applyOp (s : W_regress) : WOp → W_regress
  | .add label bucket weight it advance => s.add label bucket weight it advance
  | .transfer label src dst weight it advance =>
      s.transfer label src dst weight it advance

/-- Executes a sequence of `add`/`transfer` calls in order. -/
def runOps (s : W_regress) (ops : List WOp) : W_regress :=
  ops.foldl applyOp s

/-- The sum of one field over the three buckets. -/
def sum3 (f : Fin 3 → ℚ) : ℚ := f 0 + f 1 + f 2

/-- Net contribution of one operation to `Σ_b dist[b]`: an `add` adds
`f·w = label · (it 0 · weight)` to one bucket; a `transfer` moves it. -/
def WOp.deltaDist : WOp → ℚ
  | .add label _ weight it _ => label * (it 0 * weight)
  | .transfer .. => 0

/-- Net contribution of one operation to `Σ_b sqr[b]`. -/
def WOp.deltaSqr : WOp → ℚ
  | .add label _ weight it _ => label * (label * (it 0 * weight))
  | .transfer .. => 0

/-- Net contribution of one operation to `Σ_b wt[b]`. -/
def WOp.deltaWt : WOp → ℚ
  | .add _ _ weight it _ => it 0 * weight
  | .transfer .. => 0

/-- The zero accumulator produced by a successful `W_regress::W_regress(1)`. -/
def w_init : W_regress := ⟨fun _ => 0, fun _ => 0, fun _ => 0⟩

/-- A weight slice whose every entry is `1` (unit example weights). -/
def unitIt : ℕ → ℚ := fun _ => 1

/-- The accumulator after adding five unit-weight examples with labels
`[1, -1, 1, 1, -1]` to bucket TRUE (= 1) of a fresh accumulator. -/
def s5 : W_regress :=
  ((((w_init.add 1 1 1 unitIt 0).add (-1) 1 1 unitIt 0).add 1 1 1
      unitIt 0).add 1 1 1 unitIt 0).add (-1) 1 1 unitIt 0

/-- The accumulator after additionally transferring one example with label `1`
and weight `1` from bucket TRUE (= 1) to bucket FALSE (= 0). -/
def s6 : W_regress := s5.transfer 1 1 0 1 unitIt 0

/-- A concrete accumulator with `wt[TRUE] = 0` and nonzero weight elsewhere,
for instantiating the leaf-prediction fallback. -/
def wC4 : W_regress := ⟨![2, 3, 4], ![0, 0, 0], ![1, 0, 1]⟩

/-- A concrete accumulator whose FALSE bucket has `dist = 1`, `sqr = 0`,
`wt = 1`, i.e. a negative variance term `0 - 1²/1 = -1` (such a state is not
producible by `add` calls with nonnegative weights, but is producible by
`transfer` calls, which can drive fields arbitrary). -/
def wPruneCex : W_regress := ⟨![1, 0, 0], ![0, 0, 0], ![1, 0, 0]⟩

/-- A concrete accumulator whose MISSING bucket holds `dist = 0`, `sqr = 1`,
`wt = 1`, giving a missing term of `1`. -/
def wPruneWit : W_regress := ⟨![0, 0, 0], ![0, 0, 1], ![0, 0, 1]⟩

/-- A concrete accumulator all of whose fields are `-1`. -/
def wClipCex : W_regress := ⟨![-1, -1, -1], ![-1, -1, -1], ![-1, -1, -1]⟩

lemma sum3_update (f : Fin 3 → ℚ) (i : Fin 3) (v : ℚ) :
    sum3 (Function.update f i v) = sum3 f - f i + v := by
  fin_cases i <;> simp [sum3, Function.update] <;> ring

lemma applyOp_sumDist (s : W_regress) (op : WOp) :
    sum3 (applyOp s op).dist = sum3 s.dist + op.deltaDist := by
  cases op <;>
    simp [applyOp, W_regress.add, W_regress.transfer, WOp.deltaDist,
      sum3_update, Function.update_same] <;> ring

lemma applyOp_sumSqr (s : W_regress) (op : WOp) :
    sum3 (applyOp s op).sqr = sum3 s.sqr + op.deltaSqr := by
  cases op <;>
    simp [applyOp, W_regress.add, W_regress.transfer, WOp.deltaSqr,
      sum3_update, Function.update_same] <;> ring

lemma applyOp_sumWt (s : W_regress) (op : WOp) :
    sum3 (applyOp s op).wt = sum3 s.wt + op.deltaWt := by
  cases op <;>
    simp [applyOp, W_regress.add, W_regress.transfer, WOp.deltaWt,
      sum3_update, Function.update_same] <;> ring

lemma runOps_sumDist (ops : List WOp) (s : W_regress) :
    sum3 (runOps s ops).dist = sum3 s.dist + (ops.map WOp.deltaDist).sum := by
  induction ops generalizing s with
  | nil => simp [runOps]
  | cons op rest ih =>
      simp only [runOps, List.foldl_cons, List.map_cons, List.sum_cons]
      rw [show List.foldl applyOp (applyOp s op) rest = runOps (applyOp s op) rest from rfl,
        ih, applyOp_sumDist]
      ring

lemma runOps_sumSqr (ops : List WOp) (s : W_regress) :
    sum3 (runOps s ops).sqr = sum3 s.sqr + (ops.map WOp.deltaSqr).sum := by
  induction ops generalizing s with
  | nil => simp [runOps]
  | cons op rest ih =>
      simp only [runOps, List.foldl_cons, List.map_cons, List.sum_cons]
      rw [show List.foldl applyOp (applyOp s op) rest = runOps (applyOp s op) rest from rfl,
        ih, applyOp_sumSqr]
      ring

lemma runOps_sumWt (ops : List WOp) (s : W_regress) :
    sum3 (runOps s ops).wt = sum3 s.wt + (ops.map WOp.deltaWt).sum := by
  induction ops generalizing s with
  | nil => simp [runOps]
  | cons op rest ih =>
      simp only [runOps, List.foldl_cons, List.map_cons, List.sum_cons]
      rw [show List.foldl applyOp (applyOp s op) rest = runOps (applyOp s op) rest from rfl,
        ih, applyOp_sumWt]
      ring

lemma filter_deltaDist (ops : List WOp) :
    ((ops.filter WOp.isAdd).map WOp.deltaDist).sum = (ops.map WOp.deltaDist).sum := by
  induction ops with
  | nil => simp
  | cons op rest ih => cases op <;> simp [List.filter, WOp.isAdd, WOp.deltaDist, ih]

lemma filter_deltaSqr (ops : List WOp) :
    ((ops.filter WOp.isAdd).map WOp.deltaSqr).sum = (ops.map WOp.deltaSqr).sum := by
  induction ops with
  | nil => simp
  | cons op rest ih => cases op <;> simp [List.filter, WOp.isAdd, WOp.deltaSqr, ih]

lemma filter_deltaWt (ops : List WOp) :
    ((ops.filter WOp.isAdd).map WOp.deltaWt).sum = (ops.map WOp.deltaWt).sum := by
  induction ops with
  | nil => simp
  | cons op rest ih => cases op <;> simp [List.filter, WOp.isAdd, WOp.deltaWt, ih]

/-- C2: Conservation.  In exact arithmetic a single
`transfer(label, from, to, weight, it, advance)` call leaves each of the three
bucket sums `Σ_b dist[b]`, `Σ_b sqr[b]`, `Σ_b wt[b]` unchanged, and for every
sequence of `add`/`transfer` calls the per-field sums over all three buckets
equal the sums obtained by the corresponding sequence of `add` calls alone. -/
theorem C2_conservation :
    (∀ (s : W_regress) (label : ℚ) (src dst : Fin 3) (weight : ℚ)
        (it : ℕ → ℚ) (advance : ℤ),
      sum3 (s.transfer label src dst weight it advance).dist = sum3 s.dist ∧
      sum3 (s.transfer label src dst weight it advance).sqr = sum3 s.sqr ∧
      sum3 (s.transfer label src dst weight it advance).wt = sum3 s.wt) ∧
    (∀ (s : W_regress) (ops : List WOp),
      sum3 (runOps s ops).dist = sum3 (runOps s (ops.filter WOp.isAdd)).dist ∧
      sum3 (runOps s ops).sqr = sum3 (runOps s (ops.filter WOp.isAdd)).sqr ∧
      sum3 (runOps s ops).wt = sum3 (runOps s (ops.filter WOp.isAdd)).wt) := by
  constructor
  · intro s label src dst weight it advance
    refine ⟨?_, ?_, ?_⟩ <;>
      simp [W_regress.transfer, sum3_update, Function.update_same] <;> ring
  · intro s ops
    refine ⟨?_, ?_, ?_⟩
    · rw [runOps_sumDist, runOps_sumDist, filter_deltaDist]
    · rw [runOps_sumSqr, runOps_sumSqr, filter_deltaSqr]
    · rw [runOps_sumWt, runOps_sumWt, filter_deltaWt]

/-- C7: Construction fails with `InvalidProblem` exactly when `numLabels ≠ 1`;
with `numLabels = 1` it succeeds and every one of the nine fields of the fresh
accumulator is `0`. -/
theorem C7_construct (nl : ℕ) :
    (W_regress.construct nl = .error .invalidProblem ↔ nl ≠ 1) ∧
    (nl = 1 → W_regress.construct nl = .ok w_init) ∧
    (∀ i, w_init.dist i = 0 ∧ w_init.sqr i = 0 ∧ w_init.wt i = 0) := by
  refine ⟨?_, ?_, fun i => ⟨rfl, rfl, rfl⟩⟩
  · unfold W_regress.construct
    by_cases h : nl = 1 <;> simp [h, w_init]
  · intro h
    simp [W_regress.construct, h, w_init]

/-- C7 witness: `construct 2` fails with `InvalidProblem`; `construct 1`
succeeds with the all-zero accumulator. -/
theorem C7_construct_witness :
    W_regress.construct 2 = .error .invalidProblem ∧
    W_regress.construct 1 = .ok w_init :=
  ⟨(C7_construct 2).1.mpr (by norm_num), (C7_construct 1).2.1 rfl⟩

/-- C8: The accumulator-to-accumulator bulk `transfer(from, to, other)` always
fails with `NotImplemented`, and the receiving accumulator is left exactly
unchanged by the failed call. -/
theorem C8_bulk_transfer (s : W_regress) (src dst : Fin 3) (other : W_regress) :
    (s.transferBulk src dst other).1 = some .notImplemented ∧
    (s.transferBulk src dst other).2 = s :=
  ⟨rfl, rfl⟩

/-- C9: Channel-0-only noninterference.  `add` and `transfer` read only entry
`0` of the weight slice: two calls on the same state whose slices agree at
index `0` produce identical states, for any stride/advance arguments and any
slice entries past index `0`. -/
theorem C9_channel0 (s : W_regress) (label weight : ℚ) (it1 it2 : ℕ → ℚ)
    (a1 a2 : ℤ) (h : it1 0 = it2 0) :
    (∀ bucket : Fin 3,
      s.add label bucket weight it1 a1 = s.add label bucket weight it2 a2) ∧
    (∀ src dst : Fin 3,
      s.transfer label src dst weight it1 a1
        = s.transfer label src dst weight it2 a2) := by
  constructor
  · intro bucket
    simp [W_regress.add, h]
  · intro src dst
    simp [W_regress.transfer, h]

/-- C9 witness: two concrete weight slices agreeing at index 0 but differing
at index 1, with different advance arguments, give the same `add` result. -/
theorem C9_channel0_witness :
    w_init.add 2 1 3 (fun _ => (1 : ℚ)) 0
      = w_init.add 2 1 3 (fun n => if n = 0 then (1 : ℚ) else 5) 7 :=
  (C9_channel0 w_init 2 3 (fun _ => (1 : ℚ))
    (fun n => if n = 0 then (1 : ℚ) else 5) 0 7 (by norm_num)).1 1

/-- C10: Frame effect of `clip(b)`: every field of the two buckets other than
`b` is left exactly unchanged. -/
theorem C10_clip_frame (w : W_regress) (b j : Fin 3) (h : j ≠ b) :
    (w.clip b).dist j = w.dist j ∧ (w.clip b).sqr j = w.sqr j ∧
    (w.clip b).wt j = w.wt j := by
  refine ⟨?_, ?_, ?_⟩ <;> simp [W_regress.clip, Function.update_noteq h]

/-- C10 witness: clipping bucket 0 of the all-zero accumulator leaves the
fields of bucket 1 unchanged. -/
theorem C10_clip_frame_witness :
    (w_init.clip 0).dist 1 = w_init.dist 1 ∧
    (w_init.clip 0).sqr 1 = w_init.sqr 1 ∧
    (w_init.clip 0).wt 1 = w_init.wt 1 :=
  C10_clip_frame w_init 0 1 (by decide)

/-- C3: End-to-end example.  From a fresh accumulator, adding five unit-weight
examples with labels `[1, -1, 1, 1, -1]` to bucket TRUE yields
`wt[TRUE] = 5`, `dist[TRUE] = 1`, `sqr[TRUE] = 5`, `missing = 0` and full
score `5 - 1²/5 = 4.8`; then transferring one example with label `1`, weight
`1` from TRUE to FALSE yields `wt[TRUE] = 4`, `dist[TRUE] = 0`,
`sqr[TRUE] = 4`, `wt[FALSE] = 1`, `dist[FALSE] = 1`, `sqr[FALSE] = 1` and
score `(4 - 0) + (1 - 1) = 4`. -/
theorem C3_end_to_end :
    W_regress.construct 1 = .ok w_init ∧
    s5.wt 1 = 5 ∧ s5.dist 1 = 1 ∧ s5.sqr 1 = 5 ∧
    Z_regress.missing s5 = 0 ∧ Z_regress.score s5 = 24 / 5 ∧
    s6.wt 1 = 4 ∧ s6.dist 1 = 0 ∧ s6.sqr 1 = 4 ∧
    s6.wt 0 = 1 ∧ s6.dist 0 = 1 ∧ s6.sqr 0 = 1 ∧
    Z_regress.score s6 = 4 := by
  refine ⟨rfl, ?_, ?_, ?_, ?_, ?_, ?_, ?_, ?_, ?_, ?_, ?_, ?_⟩ <;>
    norm_num +decide [s5, s6, w_init, unitIt, W_regress.add,
      W_regress.transfer, Function.update, Z_regress.score, Z_regress.missing,
      Z_regress.non_missing, eps]

/-- C4: Leaf prediction with fallback.  For every accumulator, a bucket with
`wt[i] > 1e-20` is predicted as `dist[i]/wt[i]`, and a bucket with
`wt[i] ≤ 1e-20` is predicted as the global weighted mean
`(Σ_j dist[j]) / (Σ_j wt[j])`; in particular with `wt[TRUE] = 0` and nonzero
weight elsewhere, the TRUE-bucket prediction is the global weighted mean. -/
theorem C4_leaf_prediction (w : W_regress) :
    (∀ i, eps < w.wt i → C_regress.predict w i = w.dist i / w.wt i) ∧
    (∀ i, w.wt i ≤ eps →
      C_regress.predict w i = C_regress.total w / C_regress.total_wt w) ∧
    (w.wt 1 = 0 → (w.wt 0 ≠ 0 ∨ w.wt 2 ≠ 0) →
      C_regress.predict w 1 = C_regress.total w / C_regress.total_wt w) := by
  refine ⟨fun i h => ?_, fun i h => ?_, fun h1 _ => ?_⟩
  · simp [C_regress.predict, h]
  · simp [C_regress.predict, not_lt.mpr h, C_regress.total, C_regress.total_wt]
  · have h1le : w.wt 1 ≤ eps := by rw [h1]; norm_num [eps]
    simp [C_regress.predict, not_lt.mpr h1le, C_regress.total,
      C_regress.total_wt]

/-- C4 witness: on the concrete accumulator `wC4` (with `wt = (1, 0, 1)` and
`dist = (2, 3, 4)`), bucket FALSE is predicted as its own mean and bucket
TRUE, having zero weight, falls back to the global weighted mean. -/
theorem C4_leaf_prediction_witness :
    C_regress.predict wC4 0 = wC4.dist 0 / wC4.wt 0 ∧
    C_regress.predict wC4 1 = C_regress.total wC4 / C_regress.total_wt wC4 :=
  ⟨(C4_leaf_prediction wC4).1 0 (by norm_num [wC4, eps]),
   (C4_leaf_prediction wC4).2.2 (by norm_num [wC4])
     (Or.inl (by norm_num [wC4]))⟩

/-- C5: Degenerate zero-total-weight prediction.  When every bucket's weight
is `≤ 1e-20`, every bucket takes the unguarded fallback branch, whose divisor
is `total_wt = Σ_j wt[j]`; when moreover every bucket's weight is exactly `0`
(the all-zero accumulator) that divisor is `0`, and for the all-zero
accumulator the numerator `total` is `0` as well — a zero-by-zero division
the source does not guard (in IEEE doubles, NaN; rational division by zero is
the embedding's stand-in). -/
theorem C5_zero_total_weight (w : W_regress) (h : ∀ i, w.wt i ≤ eps) :
    (∀ i, C_regress.predict w i = C_regress.total w / C_regress.total_wt w) ∧
    ((∀ i, w.wt i = 0) → C_regress.total_wt w = 0) ∧
    (C_regress.total_wt w_init = 0 ∧ C_regress.total w_init = 0 ∧
      ∀ i, C_regress.predict w_init i
        = C_regress.total w_init / C_regress.total_wt w_init) := by
  refine ⟨fun i => ?_, fun h0 => ?_, ?_, ?_, fun i => ?_⟩
  · simp [C_regress.predict, not_lt.mpr (h i), C_regress.total,
      C_regress.total_wt]
  · simp [C_regress.total_wt, h0]
  · norm_num [C_regress.total_wt, w_init]
  · norm_num [C_regress.total, w_init]
  · simp [C_regress.predict, w_init, C_regress.total, C_regress.total_wt,
      eps]

/-- C5 witness: instantiated at the all-zero accumulator: the MISSING bucket's
prediction is the fallback mean and its divisor is `0`. -/
theorem C5_zero_total_weight_witness :
    C_regress.predict w_init 2
      = C_regress.total w_init / C_regress.total_wt w_init ∧
    C_regress.total_wt w_init = 0 :=
  ⟨(C5_zero_total_weight w_init (by norm_num [w_init, eps])).1 2,
   (C5_zero_total_weight w_init (by norm_num [w_init, eps])).2.1
     (fun _ => rfl)⟩

/-- C1 counterexample: over arbitrary accumulator states the claim is false.
On `wPruneCex` (FALSE bucket with `dist = 1`, `sqr = 0`, `wt = 1`, a negative
variance term) and `zBest = -1/2`, `can_beat` returns `false` yet the full
score is `-1 < -1/2`: the claim's universal quantification over all
accumulator states does not hold, because `sqr[i] - dist[i]²/wt[i]` is only
nonnegative for states satisfying the per-bucket Cauchy-Schwarz relation. -/
theorem C1_pruning_cex :
    Z_regress.can_beat wPruneCex (Z_regress.missing wPruneCex) (-(1 / 2))
      = false ∧
    Z_regress.score wPruneCex < -(1 / 2) := by
  constructor <;>
    norm_num [Z_regress.can_beat, Z_regress.missing, Z_regress.score,
      Z_regress.non_missing, wPruneCex, eps]

/-- C1 amended: Pruning soundness holds for accumulator states whose buckets
satisfy `0 ≤ wt[i]` and `dist[i]² ≤ sqr[i]·wt[i]` (the Cauchy-Schwarz
relation, true of every state built by `add` calls with nonnegative weights):
for every such state and every `zBest`, if `can_beat(w, missing(w), zBest)`
returns `false` then the full score `operator()(w)` is `≥ zBest`. -/
theorem C1_pruning_sound (w : W_regress) (zBest : ℚ)
    (hwt : ∀ i, 0 ≤ w.wt i)
    (hcs : ∀ i, w.dist i * w.dist i ≤ w.sqr i * w.wt i)
    (hcb : Z_regress.can_beat w (Z_regress.missing w) zBest = false) :
    zBest ≤ Z_regress.score w := by
  have heps : (0 : ℚ) < eps := by norm_num [eps]
  have hterm : ∀ i : Fin 3,
      0 ≤ (if w.wt i > eps then w.sqr i - w.dist i * w.dist i / w.wt i
           else 0) := by
    intro i
    split
    · next hgt =>
        have hz : 0 < w.wt i := lt_trans heps hgt
        rw [sub_nonneg, div_le_iff₀ hz]
        exact hcs i
    · exact le_refl 0
  have hmiss : 0 ≤ Z_regress.missing w := by
    simpa [Z_regress.missing] using hterm 2
  have hscore : Z_regress.missing w ≤ Z_regress.score w := by
    have h0 := hterm 0
    have h1 := hterm 1
    simp only [Z_regress.score, Z_regress.non_missing]
    linarith
  have hnot : ¬(Z_regress.missing w ≤ zBest * 1.0001) := by
    simpa [Z_regress.can_beat] using hcb
  push_neg at hnot
  rcases le_or_lt 0 zBest with hz | hz
  · have hone : (1 : ℚ) ≤ 1.0001 := by norm_num
    have : zBest * 1 ≤ zBest * 1.0001 := mul_le_mul_of_nonneg_left hone hz
    linarith
  · linarith

/-- C1 witness: on `wPruneWit` (MISSING bucket with `sqr = wt = 1`,
`dist = 0`, all buckets Cauchy-Schwarz) and `zBest = 1/2`, `can_beat` is
`false` and the amended bound gives `1/2 ≤ score = 1`. -/
theorem C1_pruning_sound_witness :
    (1 : ℚ) / 2 ≤ Z_regress.score wPruneWit :=
  C1_pruning_sound wPruneWit (1 / 2)
    (fun i => by fin_cases i <;> norm_num [wPruneWit])
    (fun i => by fin_cases i <;> norm_num [wPruneWit])
    (by norm_num [Z_regress.can_beat, Z_regress.missing, wPruneWit, eps])

/-- C6 counterexample: `clip` does increase fields.  On the accumulator whose
fields are all `-1`, `clip(0)` raises `dist[0]` from `-1` to `0`, refuting
"clip never increases any of dist[b], sqr[b], wt[b]" (the `std::max(·, 0.0)`
clamp can only raise values). -/
theorem C6_clip_cex :
    wClipCex.dist 0 = -1 ∧ (wClipCex.clip 0).dist 0 = 0 ∧
    ¬(wClipCex.clip 0).dist 0 ≤ wClipCex.dist 0 := by
  refine ⟨?_, ?_, ?_⟩ <;>
    norm_num [wClipCex, W_regress.clip, Function.update_same]

/-- C6 amended: `clip(b)` applied twice yields exactly the same state as
applied once; `clip(b)` never decreases any of `dist[b]`, `sqr[b]`, `wt[b]`;
and after `clip(b)` all three fields of bucket `b` are `≥ 0`. -/
theorem C6_clip_props (w : W_regress) (b : Fin 3) :
    (w.clip b).clip b = w.clip b ∧
    (w.dist b ≤ (w.clip b).dist b ∧ w.sqr b ≤ (w.clip b).sqr b ∧
      w.wt b ≤ (w.clip b).wt b) ∧
    (0 ≤ (w.clip b).dist b ∧ 0 ≤ (w.clip b).sqr b ∧
      0 ≤ (w.clip b).wt b) := by
  refine ⟨?_, ⟨?_, ?_, ?_⟩, ⟨?_, ?_, ?_⟩⟩
  · simp [W_regress.clip, Function.update_idem, Function.update_same,
      max_assoc]
  · simp only [W_regress.clip, Function.update_same]
    exact le_max_left _ _
  · simp only [W_regress.clip, Function.update_same]
    exact le_max_left _ _
  · simp only [W_regress.clip, Function.update_same]
    exact le_max_left _ _
  · simp only [W_regress.clip, Function.update_same]
    exact le_max_right _ _
  · simp only [W_regress.clip, Function.update_same]
    exact le_max_right _ _
  · simp only [W_regress.clip, Function.update_same]
    exact le_max_right _ _

end ML
